import Mathlib

/-!
# Verification of the LLM App Developer pipeline

A shallow embedding of the task-processing pipeline (request gateway,
repository-name derivation, LLM-response parsing, notifier/poller loops,
publisher commit logic) together with proofs about the embedded code.

Strings are modelled as `List Char` (Python code points); byte strings as
`List Nat` with every byte `< 256`; machine words as `Nat` reduced modulo
`2 ^ 32` where the algorithm requires it.  Python's `str.strip()` uses
the full `str.isspace` whitespace set, and `re.IGNORECASE` matching is
exact for the (fixed, ASCII) pattern characters of the embedded regexes,
including CPython's I/i/İ/ı equivalence class.  `str.lower()` is modelled
on the ASCII range; every string it is applied to in the claims proved
below is produced by the sanitizer or is a hex digest, hence ASCII.
-/

set_option maxRecDepth 4000

namespace LLMApp

/-! ## Python string primitives (ASCII-scoped) -/

/-- Python `str.lower()` on the ASCII range: maps `A`-`Z` to `a`-`z`,
leaves every other character unchanged. -/
def pyLowerChar (c : Char) : Char :=
  if 65 ≤ c.toNat ∧ c.toNat ≤ 90 then Char.ofNat (c.toNat + 32) else c

/-- Python `str.lower()` over a whole string. -/
def pyLower (s : List Char) : List Char := s.map pyLowerChar

/-- Python `str.replace("_", "-")`. -/
def replaceUnderscore (s : List Char) : List Char :=
  s.map (fun c => if c = '_' then '-' else c)

/-- Python `str.strip('-')`: drop leading and trailing hyphens. -/
def stripHyphens (s : List Char) : List Char :=
  ((s.dropWhile (· = '-')).reverse.dropWhile (· = '-')).reverse

/-- Whitespace characters recognised by Python's default `str.strip()`:
exactly the code points with `str.isspace()` true — 0x09-0x0D,
0x1C-0x20, NEL (0x85), NBSP (0xA0), OGHAM SPACE MARK (0x1680), the
U+2000-200A spaces, LINE SEPARATOR (0x2028), PARAGRAPH SEPARATOR
(0x2029), NARROW NBSP (0x202F), MEDIUM MATHEMATICAL SPACE (0x205F) and
IDEOGRAPHIC SPACE (0x3000). -/
def isPySpace (c : Char) : Bool :=
  (9 ≤ c.toNat && c.toNat ≤ 13) || (28 ≤ c.toNat && c.toNat ≤ 32) ||
  c.toNat = 133 || c.toNat = 160 || c.toNat = 5760 ||
  (8192 ≤ c.toNat && c.toNat ≤ 8202) || c.toNat = 8232 || c.toNat = 8233 ||
  c.toNat = 8239 || c.toNat = 8287 || c.toNat = 12288

/-- Python `str.strip()` with no argument. -/
def pyStrip (s : List Char) : List Char :=
  ((s.dropWhile isPySpace).reverse.dropWhile isPySpace).reverse

/-- UTF-8 encoding of one character (Python `str.encode()`). -/
def utf8EncodeChar (c : Char) : List Nat :=
  let n := c.toNat
  if n < 128 then [n]
  else if n < 2048 then [192 ||| (n >>> 6), 128 ||| (n &&& 63)]
  else if n < 65536 then
    [224 ||| (n >>> 12), 128 ||| ((n >>> 6) &&& 63), 128 ||| (n &&& 63)]
  else
    [240 ||| (n >>> 18), 128 ||| ((n >>> 12) &&& 63),
     128 ||| ((n >>> 6) &&& 63), 128 ||| (n &&& 63)]

/-- UTF-8 encoding of a string (Python `str.encode()`). -/
def utf8Encode (s : List Char) : List Nat := (s.map utf8EncodeChar).flatten

/-! ## SHA-256 (`hashlib.sha256`), FIPS 180-4, words as `Nat % 2^32` -/

/-- Reduce to a 32-bit word. -/
def w32 (n : Nat) : Nat := n % 4294967296

/-- Right rotation of a 32-bit word. -/
def rotr (n x : Nat) : Nat := w32 ((x >>> n) ||| (x <<< (32 - n)))

/-- The running hash value: eight 32-bit words. -/
structure Sha256State where
  a : Nat
  b : Nat
  c : Nat
  d : Nat
  e : Nat
  f : Nat
  g : Nat
  h : Nat

/-- Initial hash value H(0), FIPS 180-4 §5.3.3 (decimal). -/
def sha256Init : Sha256State :=
  ⟨1779033703, 3144134277, 1013904242, 2773480762,
   1359893119, 2600822924, 528734635, 1541459225⟩

/-- Round constants K, FIPS 180-4 §4.2.2 (decimal). -/
def sha256K : List Nat :=
  [1116352408, 1899447441, 3049323471, 3921009573, 961987163, 1508970993,
   2453635748, 2870763221, 3624381080, 310598401, 607225278, 1426881987,
   1925078388, 2162078206, 2614888103, 3248222580, 3835390401, 4022224774,
   264347078, 604807628, 770255983, 1249150122, 1555081692, 1996064986,
   2554220882, 2821834349, 2952996808, 3210313671, 3336571891, 3584528711,
   113926993, 338241895, 666307205, 773529912, 1294757372, 1396182291,
   1695183700, 1986661051, 2177026350, 2456956037, 2730485921, 2820302411,
   3259730800, 3345764771, 3516065817, 3600352804, 4094571909, 275423344,
   430227734, 506948616, 659060556, 883997877, 958139571, 1322822218,
   1537002063, 1747873779, 1955562222, 2024104815, 2227730452, 2361852424,
   2428436474, 2756734187, 3204031479, 3329325298]

/-- Big sigma 0. -/
def bigSigma0 (x : Nat) : Nat := rotr 2 x ^^^ rotr 13 x ^^^ rotr 22 x

/-- Big sigma 1. -/
def bigSigma1 (x : Nat) : Nat := rotr 6 x ^^^ rotr 11 x ^^^ rotr 25 x

/-- Small sigma 0. -/
def smallSigma0 (x : Nat) : Nat := rotr 7 x ^^^ rotr 18 x ^^^ (x >>> 3)

/-- Small sigma 1. -/
def smallSigma1 (x : Nat) : Nat := rotr 17 x ^^^ rotr 19 x ^^^ (x >>> 10)

/-- Choice function; `~x` realised as xor against the 32-bit mask. -/
def chFn (x y z : Nat) : Nat := (x &&& y) ^^^ ((x ^^^ 4294967295) &&& z)

/-- Majority function. -/
def majFn (x y z : Nat) : Nat := (x &&& y) ^^^ (x &&& z) ^^^ (y &&& z)

/-- Append the next word of the message schedule. -/
def scheduleStep (w : List Nat) : List Nat :=
  w ++ [w32 (smallSigma1 (w.getD (w.length - 2) 0) + w.getD (w.length - 7) 0 +
             smallSigma0 (w.getD (w.length - 15) 0) + w.getD (w.length - 16) 0)]

/-- Extend a 16-word block to the 64-word message schedule. -/
def schedule (block : List Nat) : List Nat :=
  (List.range 48).foldl (fun w _ => scheduleStep w) block

/-- One round of the compression function. -/
def roundStep (st : Sha256State) (kw : Nat × Nat) : Sha256State :=
  let t1 := w32 (st.h + bigSigma1 st.e + chFn st.e st.f st.g + kw.1 + kw.2)
  let t2 := w32 (bigSigma0 st.a + majFn st.a st.b st.c)
  ⟨w32 (t1 + t2), st.a, st.b, st.c, w32 (st.d + t1), st.e, st.f, st.g⟩

/-- Process one 16-word block. -/
def compress (st : Sha256State) (block : List Nat) : Sha256State :=
  let fin := (sha256K.zip (schedule block)).foldl roundStep st
  ⟨w32 (st.a + fin.a), w32 (st.b + fin.b), w32 (st.c + fin.c),
   w32 (st.d + fin.d), w32 (st.e + fin.e), w32 (st.f + fin.f),
   w32 (st.g + fin.g), w32 (st.h + fin.h)⟩

/-- SHA-256 padding: append `0x80`, zeros, and the 64-bit big-endian bit
length, reaching a multiple of 64 bytes. -/
def sha256Pad (msg : List Nat) : List Nat :=
  let len := msg.length
  let k := (119 - len % 64) % 64
  msg ++ 128 :: List.replicate k 0 ++
    (List.range 8).map (fun i => ((8 * len) >>> (8 * (7 - i))) % 256)

/-- Group bytes into big-endian 32-bit words. -/
def bytesToWords : List Nat → List Nat
  | a :: b :: c :: d :: rest =>
    (a * 16777216 + b * 65536 + c * 256 + d) :: bytesToWords rest
  | _ => []

/-- Split a word list into 16-word blocks (fuel-driven so that it reduces
in the kernel). -/
def chunk16Aux : Nat → List Nat → List (List Nat)
  | 0, _ => []
  | n + 1, ws => ws.take 16 :: chunk16Aux n (ws.drop 16)

/-- Split a word list into 16-word blocks. -/
def chunk16 (ws : List Nat) : List (List Nat) := chunk16Aux (ws.length / 16) ws

/-- Big-endian bytes of a 32-bit word. -/
def wordToBytes (x : Nat) : List Nat :=
  [(x >>> 24) % 256, (x >>> 16) % 256, (x >>> 8) % 256, x % 256]

/-- SHA-256 digest of a byte string, as 32 bytes. -/
def sha256Bytes (msg : List Nat) : List Nat :=
  let st := (chunk16 (bytesToWords (sha256Pad msg))).foldl compress sha256Init
  wordToBytes st.a ++ wordToBytes st.b ++ wordToBytes st.c ++ wordToBytes st.d ++
  wordToBytes st.e ++ wordToBytes st.f ++ wordToBytes st.g ++ wordToBytes st.h

/-- Lowercase hex digit for a nibble. -/
def hexChar (n : Nat) : Char :=
  if n < 10 then Char.ofNat (48 + n) else Char.ofNat (87 + n)

/-- Two lowercase hex digits of a byte. -/
def byteToHex (b : Nat) : List Char := [hexChar (b / 16), hexChar (b % 16)]

/-- Python `hashlib.sha256(msg).hexdigest()`: 64 lowercase hex characters. -/
def sha256Hex (msg : List Nat) : List Char := ((sha256Bytes msg).map byteToHex).flatten

/-! ## Repository-name derivation (src/src/utils.py) -/

/-- Character class of the regex `[a-zA-Z0-9_-]` used by
`sanitize_repo_name` (valid GitHub repo-name characters). -/
def isValidRepoChar (c : Char) : Bool :=
  (97 ≤ c.toNat && c.toNat ≤ 122) || (65 ≤ c.toNat && c.toNat ≤ 90) ||
  (48 ≤ c.toNat && c.toNat ≤ 57) || c.toNat = 95 || c.toNat = 45

/-- Python `re.sub(r'[^a-zA-Z0-9_-]', '-', name)`. -/
def replaceInvalid (s : List Char) : List Char :=
  s.map (fun c => if isValidRepoChar c then c else '-')

/-- Python `re.sub(r'-+', '-', name)`: collapse every run of hyphens to a
single hyphen. -/
def collapseHyphens : List Char → List Char
  | [] => []
  | [c] => [c]
  | c :: c2 :: rest =>
    if c = '-' ∧ c2 = '-' then collapseHyphens (c2 :: rest)
    else c :: collapseHyphens (c2 :: rest)

/-- Embeds `sanitize_repo_name` (src/src/utils.py lines 234-265): replace
invalid characters with hyphens, strip leading/trailing hyphens, collapse
hyphen runs, lowercase. -/
def sanitize_repo_name (name : List Char) : List Char :=
  pyLower (collapseHyphens (stripHyphens (replaceInvalid name)))

/-- First 8 characters of the SHA-256 hexdigest of a string, as used in
both derivation formulas (`hashlib.sha256(x.encode()).hexdigest()[:8]`). -/
def hash8 (s : List Char) : List Char := (sha256Hex (utf8Encode s)).take 8

/-- Embeds `derive_repo_name_from_task` (src/src/utils.py lines 203-231):
sanitize the task id, hash the sanitized name, combine as
`sanitized[:15] + "-" + hash[:8]`. -/
def derive_repo_name_from_task (task_id : List Char) : List Char :=
  let sanitized := sanitize_repo_name task_id
  sanitized.take 15 ++ '-' :: hash8 sanitized

/-- Embeds the inline repo-name derivation of round 2
(src/src/round2.py lines 82-84): hash the raw task id, combine as
`f"{task[:15]}-{task_hash}".lower().replace("_", "-")`.  This is the final
path segment of the repo URL round 2 constructs when no `repo_url` is
supplied. -/
def round2_derived_repo_name (task : List Char) : List Char :=
  replaceUnderscore (pyLower (task.take 15 ++ '-' :: hash8 task))

/-- The naming constraints exactly as claim C1 states them: lowercase,
only alphanumeric characters and hyphens, and no leading, trailing or
consecutive hyphens. -/
def claimedRepoNameOk (s : List Char) : Bool :=
  s.all (fun c => (97 ≤ c.toNat && c.toNat ≤ 122) ||
                  (48 ≤ c.toNat && c.toNat ≤ 57) || c = '-') &&
  !(s.head? = some '-' : Bool) && !(s.getLast? = some '-' : Bool) &&
  !hasConsecutiveHyphens s
where
  /-- Whether two adjacent hyphens occur. -/
  hasConsecutiveHyphens : List Char → Bool
    | c :: c2 :: rest => (c = '-' && c2 = '-') || hasConsecutiveHyphens (c2 :: rest)
    | _ => false

/-- Characters that can actually occur in a sanitized name: lowercase
letters, digits, underscore, hyphen. -/
def isSanChar (c : Char) : Bool :=
  (97 ≤ c.toNat && c.toNat ≤ 122) || (48 ≤ c.toNat && c.toNat ≤ 57) ||
  c.toNat = 95 || c.toNat = 45

/-- Lowercase hex digits. -/
def isHexLowerChar (c : Char) : Bool :=
  (48 ≤ c.toNat && c.toNat ≤ 57) || (97 ≤ c.toNat && c.toNat ≤ 102)

/-! ## Character-level lemmas -/

theorem toNat_ofNat_of_lt {n : Nat} (h : n < 55296) : (Char.ofNat n).toNat = n := by
  have hv : Nat.isValidChar n := Or.inl h
  simp only [Char.ofNat, hv, dif_pos]
  simp [Char.toNat, Char.ofNatAux, UInt32.toNat]

theorem char_eq_iff_toNat {c d : Char} : c = d ↔ c.toNat = d.toNat := by
  constructor
  · rintro rfl; rfl
  · intro h
    apply Char.ext
    apply UInt32.ext
    simpa [Char.toNat, UInt32.toNat] using h

theorem mem_replaceInvalid_valid {c : Char} {s : List Char}
    (h : c ∈ replaceInvalid s) : isValidRepoChar c = true := by
  simp only [replaceInvalid, List.mem_map] at h
  obtain ⟨a, -, rfl⟩ := h
  by_cases hv : isValidRepoChar a = true
  · rw [if_pos hv]; exact hv
  · rw [if_neg hv]; decide

theorem mem_stripHyphens {c : Char} {s : List Char}
    (h : c ∈ stripHyphens s) : c ∈ s := by
  rw [stripHyphens, List.mem_reverse] at h
  have h1 := (List.dropWhile_sublist (l := (s.dropWhile (· = '-')).reverse)
    (p := (· = '-'))).subset h
  rw [List.mem_reverse] at h1
  exact (List.dropWhile_sublist (l := s) (p := (· = '-'))).subset h1

theorem mem_collapseHyphens {c : Char} :
    ∀ {l : List Char}, c ∈ collapseHyphens l → c ∈ l
  | [], h => by simp [collapseHyphens] at h
  | [a], h => by simpa [collapseHyphens] using h
  | a :: b :: rest, h => by
    simp only [collapseHyphens] at h
    split at h
    · exact List.mem_cons_of_mem a (mem_collapseHyphens h)
    · rcases List.mem_cons.mp h with h | h
      · exact h ▸ List.mem_cons_self a _
      · exact List.mem_cons_of_mem a (mem_collapseHyphens h)

theorem pyLowerChar_san {c : Char} (h : isValidRepoChar c = true) :
    isSanChar (pyLowerChar c) = true := by
  simp only [isValidRepoChar, Bool.or_eq_true, Bool.and_eq_true,
    decide_eq_true_eq] at h
  simp only [pyLowerChar]
  by_cases hu : 65 ≤ c.toNat ∧ c.toNat ≤ 90
  · rw [if_pos hu]
    have : (Char.ofNat (c.toNat + 32)).toNat = c.toNat + 32 :=
      toNat_ofNat_of_lt (by omega)
    simp only [isSanChar, this, Bool.or_eq_true, Bool.and_eq_true,
      decide_eq_true_eq]
    omega
  · rw [if_neg hu]
    simp only [isSanChar, Bool.or_eq_true, Bool.and_eq_true, decide_eq_true_eq]
    omega

theorem mem_sanitize_san {c : Char} {s : List Char}
    (h : c ∈ sanitize_repo_name s) : isSanChar c = true := by
  simp only [sanitize_repo_name, pyLower, List.mem_map] at h
  obtain ⟨a, ha, rfl⟩ := h
  exact pyLowerChar_san (mem_replaceInvalid_valid (mem_stripHyphens (mem_collapseHyphens ha)))

theorem hexChar_toNat {n : Nat} (h : n < 16) :
    (hexChar n).toNat = if n < 10 then 48 + n else 87 + n := by
  unfold hexChar
  split
  · exact toNat_ofNat_of_lt (by omega)
  · exact toNat_ofNat_of_lt (by omega)

theorem mem_byteToHex_hex {c : Char} {b : Nat} (hb : b < 256)
    (h : c ∈ byteToHex b) : isHexLowerChar c = true := by
  simp only [byteToHex, List.mem_cons, List.not_mem_nil, or_false] at h
  have h16a : b / 16 < 16 := by omega
  have h16b : b % 16 < 16 := by omega
  rcases h with rfl | rfl <;>
    simp only [isHexLowerChar, hexChar_toNat h16a, hexChar_toNat h16b,
      Bool.or_eq_true, Bool.and_eq_true, decide_eq_true_eq] <;>
    split <;> omega

theorem mem_wordToBytes_lt {b x : Nat} (h : b ∈ wordToBytes x) : b < 256 := by
  simp only [wordToBytes, List.mem_cons, List.not_mem_nil, or_false] at h
  rcases h with rfl | rfl | rfl | rfl <;> omega

theorem mem_sha256Bytes_lt {b : Nat} {m : List Nat}
    (h : b ∈ sha256Bytes m) : b < 256 := by
  simp only [sha256Bytes, List.mem_append, or_assoc] at h
  rcases h with h|h|h|h|h|h|h|h <;> exact mem_wordToBytes_lt h

theorem mem_sha256Hex_hex {c : Char} {m : List Nat}
    (h : c ∈ sha256Hex m) : isHexLowerChar c = true := by
  simp only [sha256Hex, List.mem_flatten, List.mem_map] at h
  obtain ⟨l, ⟨b, hb, rfl⟩, hc⟩ := h
  exact mem_byteToHex_hex (mem_sha256Bytes_lt hb) hc

theorem sha256Bytes_length (m : List Nat) : (sha256Bytes m).length = 32 := by
  simp [sha256Bytes, wordToBytes]

theorem sha256Hex_length (m : List Nat) : (sha256Hex m).length = 64 := by
  have : ∀ bs : List Nat, ((bs.map byteToHex).flatten).length = 2 * bs.length := by
    intro bs
    induction bs with
    | nil => simp
    | cons b bs ih => simp [List.map_cons, List.flatten_cons, byteToHex, ih]; omega
  rw [sha256Hex, this, sha256Bytes_length]

theorem hash8_length (s : List Char) : (hash8 s).length = 8 := by
  simp [hash8, sha256Hex_length]

theorem mem_hash8_hex {c : Char} {s : List Char} (h : c ∈ hash8 s) :
    isHexLowerChar c = true :=
  mem_sha256Hex_hex (List.take_subset 8 _ h)

theorem hash8_ne_nil (s : List Char) : hash8 s ≠ [] := by
  intro h
  have := hash8_length s
  rw [h] at this
  simp at this

theorem hex_san {c : Char} (h : isHexLowerChar c = true) : isSanChar c = true := by
  simp only [isHexLowerChar, isSanChar, Bool.or_eq_true, Bool.and_eq_true,
    decide_eq_true_eq] at *
  omega

theorem mem_derive_san {c : Char} {t : List Char}
    (h : c ∈ derive_repo_name_from_task t) : isSanChar c = true := by
  simp only [derive_repo_name_from_task, List.mem_append, List.mem_cons] at h
  rcases h with h | h | h
  · exact mem_sanitize_san (List.take_subset 15 _ h)
  · subst h; decide
  · exact hex_san (mem_hash8_hex h)

/-! ## Claim C1 -/

/-- C1 (amended): `derive_repo_name_from_task` is deterministic, and its
output is lowercase and consists only of lowercase alphanumeric
characters, hyphens and underscores, with no trailing hyphen.  (The
original claim additionally excluded underscores and leading/consecutive
hyphens; those parts fail, see `claim_C1_counterexample`.) -/
theorem claim_C1 (t : List Char) :
    derive_repo_name_from_task t = derive_repo_name_from_task t ∧
    (derive_repo_name_from_task t).all isSanChar = true ∧
    (derive_repo_name_from_task t).getLast? ≠ some '-' := by
  refine ⟨rfl, ?_, ?_⟩
  · rw [List.all_eq_true]
    intro c hc
    exact mem_derive_san hc
  · rw [derive_repo_name_from_task]
    rw [List.getLast?_append_cons]
    intro hlast
    have hmem : '-' ∈ hash8 (sanitize_repo_name t) := by
      match hh : hash8 (sanitize_repo_name t) with
      | [] => exact absurd hh (hash8_ne_nil _)
      | hd :: tl =>
        rw [hh, List.getLast?_cons_cons] at hlast
        obtain ⟨hne, heq⟩ := List.mem_getLast?_eq_getLast hlast
        exact heq ▸ List.getLast_mem hne
    have := mem_hash8_hex hmem
    simp [isHexLowerChar] at this

/-- C1 witness: the theorem applied at a concrete task id. -/
theorem claim_C1_witness :
    (derive_repo_name_from_task "sum-of-sales-abc12".data).all isSanChar = true :=
  (claim_C1 "sum-of-sales-abc12".data).2.1

/-- C1 counterexample: the claimed naming constraints (lowercase,
alphanumeric/hyphen only, no leading/trailing/consecutive hyphens) fail:
`"a_cdefghijklmn-x"` keeps its underscore and the 15-character truncation
ends at a hyphen, producing a double hyphen before the hash; `"---"`
sanitizes to the empty string, producing a leading hyphen. -/
theorem claim_C1_counterexample :
    claimedRepoNameOk (derive_repo_name_from_task "a_cdefghijklmn-x".data) = false ∧
    claimedRepoNameOk (derive_repo_name_from_task "---".data) = false := by
  constructor <;> decide

/-! ## Claim C2 -/

theorem pyLowerChar_eq_self_of_not_upper {c : Char}
    (h : ¬ (65 ≤ c.toNat ∧ c.toNat ≤ 90)) : pyLowerChar c = c := by
  rw [pyLowerChar, if_neg h]

theorem san_fix {c : Char} (hs : isSanChar c = true) (hu : c.toNat ≠ 95) :
    (if pyLowerChar c = '_' then '-' else pyLowerChar c) = c := by
  simp only [isSanChar, Bool.or_eq_true, Bool.and_eq_true, decide_eq_true_eq] at hs
  have hl : pyLowerChar c = c := pyLowerChar_eq_self_of_not_upper (by omega)
  rw [hl, if_neg]
  rw [char_eq_iff_toNat]
  show c.toNat ≠ 95
  omega

/-- C2 (amended): when the task id is already in sanitized form
(`sanitize_repo_name t = t`) and contains no underscore, round 1's
`derive_repo_name_from_task` and round 2's inline re-derivation produce
the same repository name.  In general the two differ (round 1 hashes the
sanitized task id and keeps underscores; round 2 hashes the raw task id
and maps underscores to hyphens): see `claim_C2_counterexample`. -/
theorem claim_C2 (t : List Char) (hs : sanitize_repo_name t = t)
    (hu : t.all (fun c => c.toNat != 95) = true) :
    derive_repo_name_from_task t = round2_derived_repo_name t := by
  rw [derive_repo_name_from_task, round2_derived_repo_name, hs]
  rw [replaceUnderscore, pyLower, List.map_map]
  refine Eq.symm (((List.map_congr_left ?_).trans (List.map_id _)) :
    List.map _ (List.take 15 t ++ '-' :: hash8 t) = _)
  intro c hc
  simp only [Function.comp_apply, id_eq]
  have hsan : isSanChar c = true := by
    simp only [List.mem_append, List.mem_cons] at hc
    rcases hc with hc | hc | hc
    · exact mem_sanitize_san (hs ▸ List.take_subset 15 _ hc)
    · subst hc; decide
    · exact hex_san (mem_hash8_hex hc)
  have hu' : c.toNat ≠ 95 := by
    simp only [List.mem_append, List.mem_cons] at hc
    rcases hc with hc | hc | hc
    · have := (List.all_eq_true.mp hu) c (List.take_subset 15 _ hc)
      simpa using this
    · subst hc; decide
    · have := mem_hash8_hex hc
      simp only [isHexLowerChar, Bool.or_eq_true, Bool.and_eq_true,
        decide_eq_true_eq] at this
      omega
  exact san_fix hsan hu'

/-- C2 witness: a concrete already-sanitized, underscore-free task id on
which both derivations agree. -/
theorem claim_C2_witness :
    sanitize_repo_name "sum-of-sales-abc12".data = "sum-of-sales-abc12".data ∧
    ("sum-of-sales-abc12".data.all (fun c => c.toNat != 95)) = true ∧
    derive_repo_name_from_task "sum-of-sales-abc12".data =
      round2_derived_repo_name "sum-of-sales-abc12".data :=
  ⟨by decide, by decide, claim_C2 "sum-of-sales-abc12".data (by decide) (by decide)⟩

/-- C2 counterexample: for the task id `"a_b"` round 1 derives
`"a_b-<hash>"` while round 2 derives `"a-b-<hash>"` (underscore mapped to
hyphen, and in general a different hash since round 2 hashes the raw
id). -/
theorem claim_C2_counterexample :
    derive_repo_name_from_task "a_b".data ≠ round2_derived_repo_name "a_b".data := by
  decide

/-! ## LLM-response parsing (src/src/push_llm_code.py, `_parse_llm_response`)

Python dicts with string keys are modelled as association lists that keep
insertion order; assignment to an existing key updates the entry in
place.  `re.IGNORECASE` matching is modelled character-by-character,
exactly for the pattern characters the embedded regexes use: each folds
only with its ASCII case partner, except `I`/`i`, which CPython
additionally folds with `İ` (U+0130) and `ı` (U+0131).  The three
regexes involved
(`<FILE name="([^"]+)"[^>]*>(.*?)</FILE>`, its opening-tag part, and
`<title>([^<]+)</title>`) contain no point of true backtracking: each
character class excludes its follow-up literal, so greedy/lazy matching
reduces to the deterministic scans embedded below. -/

/-- Python dict with string keys. -/
abbrev PyDict := List (List Char × List Char)

/-- Python `key in dict`. -/
def dictContains (d : PyDict) (k : List Char) : Bool := d.any (fun p => p.1 == k)

/-- Python `dict[key] = value`. -/
def dictInsert (d : PyDict) (k v : List Char) : PyDict :=
  if dictContains d k then d.map (fun p => if p.1 == k then (k, v) else p)
  else d ++ [(k, v)]

/-- Python `dict.get(key)`. -/
def dictGet (d : PyDict) (k : List Char) : Option (List Char) :=
  (d.find? (fun p => p.1 == k)).map Prod.snd

/-- The code points CPython's `re.IGNORECASE` folds together with the
letter I: `I`, `i`, `İ` (U+0130) and `ı` (U+0131).  This is the only
equivalence class beyond plain ASCII case pairs that touches any
character of the embedded patterns (checked against CPython for every
pattern character). -/
def inIClass (c : Char) : Bool :=
  c.toNat = 73 || c.toNat = 105 || c.toNat = 304 || c.toNat = 305

/-- Case-insensitive character match of `re.IGNORECASE`, exact for the
ASCII pattern characters the embedded regexes use: ASCII case folding
extended by the I/i/İ/ı equivalence class. -/
def ciEq (a b : Char) : Bool :=
  pyLowerChar a == pyLowerChar b || (inIClass a && inIClass b)

/-- Match a literal pattern case-insensitively at the head of the input,
returning the remaining input on success. -/
def matchLitCI : List Char → List Char → Option (List Char)
  | [], s => some s
  | _ :: _, [] => none
  | p :: ps, c :: cs => if ciEq p c then matchLitCI ps cs else none

/-- The literal part of the opening tag, `<FILE name="`. -/
def openLit : List Char :=
  ['<', 'F', 'I', 'L', 'E', ' ', 'n', 'a', 'm', 'e', '=', '"']

/-- The closing tag, `</FILE>`. -/
def closeLit : List Char := ['<', '/', 'F', 'I', 'L', 'E', '>']

/-- Match the opening tag `<FILE name="([^"]+)"[^>]*>` at the head of the
input, case-insensitively.  The name capture is the maximal nonempty run
of non-quote characters; `[^>]*>` then skips to the first `>`.  Returns
the captured name and the rest of the input. -/
def matchOpenTagAt (s : List Char) : Option (List Char × List Char) :=
  match matchLitCI openLit s with
  | none => none
  | some s1 =>
    let name := s1.takeWhile (fun c => c != '"')
    if name.isEmpty then none
    else
      match s1.dropWhile (fun c => c != '"') with
      | _ :: s2 =>
        match s2.dropWhile (fun c => c != '>') with
        | _ :: s3 => some (name, s3)
        | [] => none
      | [] => none

/-- Lazy `(.*?)</FILE>`: scan for the first position where the closing
tag matches case-insensitively; return the content before it and the
rest after it. -/
def findClose : List Char → List Char → Option (List Char × List Char)
  | [], _ => none
  | c :: cs, acc =>
    match matchLitCI closeLit (c :: cs) with
    | some rest => some (acc.reverse, rest)
    | none => findClose cs (c :: acc)

/-- One full match of the Strategy-1 pattern at the head of the input:
name, content, rest. -/
def matchFileTagAt (s : List Char) : Option (List Char × List Char × List Char) :=
  match matchOpenTagAt s with
  | none => none
  | some (name, s3) =>
    match findClose s3 [] with
    | none => none
    | some (content, rest) => some (name, content, rest)

/-- Python `re.findall` for the Strategy-1 pattern: scan left to right,
emit each full match and continue after it.  Fuel-driven so that it
reduces in the kernel; every step consumes at least one character, so
`s.length` fuel always suffices. -/
def findAllAux : Nat → List Char → List (List Char × List Char)
  | 0, _ => []
  | _ + 1, [] => []
  | fuel + 1, c :: cs =>
    match matchFileTagAt (c :: cs) with
    | some r => (r.1, r.2.1) :: findAllAux fuel r.2.2
    | none => findAllAux fuel cs

/-- All Strategy-1 matches in the response text. -/
def findAllFileTags (s : List Char) : List (List Char × List Char) :=
  findAllAux s.length s

/-- Strategy 1 of `_parse_llm_response` (lines 367-375): for each regex
match, keep the stripped content under the captured name if the stripped
content is nonempty. -/
def strategyOne (s : List Char) : PyDict :=
  (findAllFileTags s).foldl
    (fun files nc =>
      let cleaned := pyStrip nc.2
      if cleaned.isEmpty then files else dictInsert files nc.1 cleaned) []

/-- Case-sensitive substring containment (Python `in`). -/
def containsSub (pat : List Char) : List Char → Bool
  | [] => pat.isEmpty
  | c :: cs => pat.isPrefixOf (c :: cs) || containsSub pat cs

/-- Python `str.split('\n')`. -/
def splitLines : List Char → List (List Char)
  | [] => [[]]
  | c :: cs =>
    match splitLines cs with
    | [] => [[c]]
    | l :: ls => if c = '\n' then [] :: l :: ls else (c :: l) :: ls

/-- Python `'\n'.join(lines)`. -/
def joinLines : List (List Char) → List Char
  | [] => []
  | l :: rest => l ++ (rest.map (fun x => '\n' :: x)).flatten

/-- Python `re.search` for the opening-tag pattern inside one line:
first position where a full opening-tag match succeeds; returns the
captured name and the rest of the line after the match. -/
def searchOpenTag : List Char → Option (List Char × List Char)
  | [] => none
  | c :: cs =>
    match matchOpenTagAt (c :: cs) with
    | some r => some r
    | none => searchOpenTag cs

/-- State of the Strategy-2 line scanner (`current_file`,
`current_content`, accumulated `files`). -/
structure AltState where
  files : PyDict
  currentFile : Option (List Char)
  currentContent : List (List Char)

/-- The save-current-file snippet of Strategy 2: if a file is open and
content lines were collected and their joined, stripped text is nonempty,
store it. -/
def altSave (st : AltState) : PyDict :=
  match st.currentFile with
  | none => st.files
  | some f =>
    if st.currentContent.isEmpty then st.files
    else
      let content := pyStrip (joinLines st.currentContent)
      if content.isEmpty then st.files else dictInsert st.files f content

/-- One line of the Strategy-2 scanner (lines 385-415). -/
def altStep (st : AltState) (line : List Char) : AltState :=
  if containsSub "<FILE name=\"".data line || containsSub "<file name=\"".data line then
    let st1 :=
      if st.currentFile.isSome && !st.currentContent.isEmpty then
        { st with files := altSave st, currentContent := [] }
      else st
    match searchOpenTag line with
    | some (name, rest) =>
      let restS := pyStrip rest
      let content :=
        if !restS.isEmpty && !(restS.head? == some '<') then
          st1.currentContent ++ [restS]
        else st1.currentContent
      { files := st1.files, currentFile := some name, currentContent := content }
    | none => st1
  else if containsSub "</FILE>".data line || containsSub "</file>".data line then
    { files := altSave st, currentFile := none, currentContent := [] }
  else
    match st.currentFile with
    | some _ => { st with currentContent := st.currentContent ++ [line] }
    | none => st

/-- Strategy 2 of `_parse_llm_response` (lines 379-422): line-by-line
recovery, with a final save of a still-open file. -/
def strategyTwo (s : List Char) : PyDict :=
  altSave ((splitLines s).foldl altStep ⟨[], none, []⟩)

/-- The parsing part of `_parse_llm_response` (lines 358-422), before the
LICENSE/README injection: Strategy 1, falling back to Strategy 2 when
Strategy 1 produced nothing. -/
def parseResponseFiles (s : List Char) : PyDict :=
  let files := strategyOne s
  if files.isEmpty then strategyTwo s else files

/-- Key `"LICENSE"`. -/
def licenseKey : List Char := "LICENSE".data

/-- Key `"README.md"`. -/
def readmeKey : List Char := "README.md".data

/-- The default MIT license text injected when the model produced none
(lines 426-446). -/
def defaultLicense : List Char :=
  ("MIT License\n\nCopyright (c) 2025 LLM App Developer\n\nPermission is hereby granted, free of charge, to any person obtaining a copy\nof this software and associated documentation files (the \"Software\"), to deal\nin the Software without restriction, including without limitation the rights\nto use, copy, modify, merge, publish, distribute, sublicense, and/or sell\ncopies of the Software, and to permit persons to whom the Software is\nfurnished to do so, subject to the following conditions:\n\nThe above copyright notice and this permission notice shall be included in all\ncopies or substantial portions of the Software.\n\nTHE SOFTWARE IS PROVIDED \"AS IS\", WITHOUT WARRANTY OF ANY KIND, EXPRESS OR\nIMPLIED, INCLUDING BUT NOT LIMITED TO THE WARRANTIES OF MERCHANTABILITY,\nFITNESS FOR A PARTICULAR PURPOSE AND NONINFRINGEMENT. IN NO EVENT SHALL THE\nAUTHORS OR COPYRIGHT HOLDERS BE LIABLE FOR ANY CLAIM, DAMAGES OR OTHER\nLIABILITY, WHETHER IN AN ACTION OF CONTRACT, TORT OR OTHERWISE, ARISING FROM,\nOUT OF OR IN CONNECTION WITH THE SOFTWARE OR THE USE OR OTHER DEALINGS IN THE\nSOFTWARE.").data

/-- Match `<title>([^<]+)</title>` at the head of the input,
case-insensitively, returning the captured title. -/
def matchTitleAt (s : List Char) : Option (List Char) :=
  match matchLitCI "<title>".data s with
  | none => none
  | some s1 =>
    let t := s1.takeWhile (fun c => c != '<')
    if t.isEmpty then none
    else
      match matchLitCI "</title>".data (s1.dropWhile (fun c => c != '<')) with
      | some _ => some t
      | none => none

/-- Python `re.search(r'<title>([^<]+)</title>', html, re.IGNORECASE)`. -/
def searchTitle : List Char → Option (List Char)
  | [] => none
  | c :: cs =>
    match matchTitleAt (c :: cs) with
    | some t => some t
    | none => searchTitle cs

/-- Body of the default README after the title heading (lines 460-477). -/
def defaultReadmeBody : List Char :=
  ("\n\nAuto-generated web application.\n\n## Features\n\n- Modern, responsive design\n- Clean and intuitive interface\n- Production-ready code\n\n## Usage\n\nOpen `index.html` in a web browser or visit the GitHub Pages deployment.\n\n## License\n\nMIT License - see LICENSE file for details.\n").data

/-- The default README injected when the model produced none
(lines 450-478): the app name comes from the `<title>` of a generated
`index.html` when available. -/
def defaultReadme (files : PyDict) : List Char :=
  let appName :=
    match dictGet files "index.html".data with
    | some html =>
      match searchTitle html with
      | some t => t
      | none => "Web Application".data
    | none => "Web Application".data
  '#' :: ' ' :: (appName ++ defaultReadmeBody)

/-- The LICENSE/README injection step of `_parse_llm_response`
(lines 424-479). -/
def injectDefaults (files : PyDict) : PyDict :=
  let f1 :=
    if dictContains files licenseKey then files
    else dictInsert files licenseKey defaultLicense
  if dictContains f1 readmeKey then f1
  else dictInsert f1 readmeKey (defaultReadme f1)

/-- Embeds `_parse_llm_response` (src/src/push_llm_code.py
lines 358-480). -/
def parse_llm_response (s : List Char) : PyDict :=
  injectDefaults (parseResponseFiles s)

/-! ## Well-formed blocks and their round-trip through Strategy 1 -/

/-- Render a canonical well-formed FILE block
`<FILE name="NAME">CONTENT</FILE>`. -/
def renderBlock (b : List Char × List Char) : List Char :=
  openLit ++ b.1 ++ '"' :: '>' :: (b.2 ++ closeLit)

/-- Render a response text composed of N blocks. -/
def renderBlocks (bs : List (List Char × List Char)) : List Char :=
  (bs.map renderBlock).flatten

/-- Whether a case-insensitive match of the closing tag starts strictly
inside `content` when `content` is followed by the closing tag.  Because
the closing tag has no self-overlap, this is exactly "the lazy capture
stops at the block's own closing tag". -/
def earlyClose : List Char → Bool
  | [] => false
  | c :: cs => (matchLitCI closeLit (c :: cs ++ closeLit)).isSome || earlyClose cs

/-- Well-formed block: nonempty name without a quote character, and
content in which the closing-tag search first succeeds at the block's
own closing tag. -/
def wellFormedBlock (b : List Char × List Char) : Bool :=
  !b.1.isEmpty && b.1.all (fun c => c != '"') && !earlyClose b.2

theorem matchLitCI_self_append : ∀ (p x : List Char), matchLitCI p (p ++ x) = some x
  | [], _ => rfl
  | c :: p, x => by
    have hc : ciEq c c = true := by simp [ciEq]
    simp only [List.cons_append, matchLitCI, hc, if_true]
    exact matchLitCI_self_append p x

theorem matchLitCI_none_extend : ∀ {p s : List Char}, matchLitCI p s = none →
    p.length ≤ s.length → ∀ t, matchLitCI p (s ++ t) = none
  | [], s, h, _, _ => by simp [matchLitCI] at h
  | _ :: _, [], _, hlen, _ => by simp at hlen
  | c :: p, d :: s, h, hlen, t => by
    simp only [matchLitCI, List.cons_append] at h ⊢
    by_cases hc : ciEq c d = true
    · rw [if_pos hc] at h ⊢
      exact matchLitCI_none_extend h (by simpa using hlen) t
    · rw [if_neg hc]

theorem takeWhile_append_stop {p : Char → Bool} {a : Char} {l2 : List Char}
    (ha : p a = false) :
    ∀ {l1 : List Char}, (∀ c ∈ l1, p c = true) →
      (l1 ++ a :: l2).takeWhile p = l1
  | [], _ => by simp [List.takeWhile_cons, ha]
  | c :: l1, h => by
    have hc : p c = true := h c (List.mem_cons_self c l1)
    simp only [List.cons_append, List.takeWhile_cons, hc, if_true]
    rw [takeWhile_append_stop ha (fun d hd => h d (List.mem_cons_of_mem c hd))]

theorem dropWhile_append_stop {p : Char → Bool} {a : Char} {l2 : List Char}
    (ha : p a = false) :
    ∀ {l1 : List Char}, (∀ c ∈ l1, p c = true) →
      (l1 ++ a :: l2).dropWhile p = a :: l2
  | [], _ => by simp [List.dropWhile_cons, ha]
  | c :: l1, h => by
    have hc : p c = true := h c (List.mem_cons_self c l1)
    simp only [List.cons_append, List.dropWhile_cons, hc, if_true]
    exact dropWhile_append_stop ha (fun d hd => h d (List.mem_cons_of_mem c hd))

theorem matchOpenTagAt_render (n tail : List Char) (hn : n ≠ [])
    (hq : ∀ c ∈ n, (c != '"') = true) :
    matchOpenTagAt (openLit ++ (n ++ '"' :: '>' :: tail)) = some (n, tail) := by
  rw [matchOpenTagAt, matchLitCI_self_append]
  have htake : (n ++ '"' :: '>' :: tail).takeWhile (fun c => c != '"') = n :=
    takeWhile_append_stop (by decide) hq
  have hdrop : (n ++ '"' :: '>' :: tail).dropWhile (fun c => c != '"') = '"' :: '>' :: tail :=
    dropWhile_append_stop (by decide) hq
  simp only [htake, hdrop]
  rw [if_neg (by simpa [List.isEmpty_iff] using hn)]
  have hdrop2 : ('>' :: tail).dropWhile (fun c => c != '>') = '>' :: tail := by
    simp [List.dropWhile_cons]
  simp only [hdrop2]

theorem findClose_cons (c : Char) (cs acc : List Char) :
    findClose (c :: cs) acc =
      match matchLitCI closeLit (c :: cs) with
      | some rest => some (acc.reverse, rest)
      | none => findClose cs (c :: acc) := rfl

theorem findClose_boundary : ∀ (content rest acc : List Char),
    earlyClose content = false →
    findClose (content ++ (closeLit ++ rest)) acc = some (acc.reverse ++ content, rest)
  | [], rest, acc, _ => by
    show findClose ('<' :: ('/' :: 'F' :: 'I' :: 'L' :: 'E' :: '>' :: rest)) acc = _
    rw [findClose_cons,
      show ('<' :: '/' :: 'F' :: 'I' :: 'L' :: 'E' :: '>' :: rest : List Char) =
        closeLit ++ rest from rfl,
      matchLitCI_self_append]
    simp
  | c :: cs, rest, acc, h => by
    have h' : (matchLitCI closeLit (c :: cs ++ closeLit)).isSome = false ∧
        earlyClose cs = false := by
      rw [← Bool.or_eq_false_iff]
      exact h
    obtain ⟨h1, h2⟩ := h'
    have hnone0 : matchLitCI closeLit (c :: cs ++ closeLit) = none := by
      cases hm : matchLitCI closeLit (c :: cs ++ closeLit) with
      | none => rfl
      | some r => rw [hm] at h1; simp at h1
    have hnone : matchLitCI closeLit (c :: (cs ++ (closeLit ++ rest))) = none := by
      have hx := matchLitCI_none_extend hnone0 (by simp [closeLit]) rest
      simpa [List.append_assoc] using hx
    have hshape : (c :: cs) ++ (closeLit ++ rest) = c :: (cs ++ (closeLit ++ rest)) := by
      simp
    rw [hshape, findClose_cons, hnone]
    show findClose (cs ++ (closeLit ++ rest)) (c :: acc) = _
    rw [findClose_boundary cs rest (c :: acc) h2]
    simp

theorem matchFileTagAt_render (b : List Char × List Char) (rest : List Char)
    (hwf : wellFormedBlock b = true) :
    matchFileTagAt (renderBlock b ++ rest) = some (b.1, b.2, rest) := by
  obtain ⟨n, content⟩ := b
  simp only [wellFormedBlock, Bool.and_eq_true, Bool.not_eq_true',
    List.all_eq_true] at hwf
  obtain ⟨⟨hn, hq⟩, hec⟩ := hwf
  have hshape : renderBlock (n, content) ++ rest =
      openLit ++ (n ++ '"' :: '>' :: (content ++ (closeLit ++ rest))) := by
    simp [renderBlock, List.append_assoc]
  rw [hshape, matchFileTagAt,
    matchOpenTagAt_render n _ (by simpa [List.isEmpty_iff] using hn) hq]
  dsimp only
  rw [findClose_boundary content rest [] hec]
  simp

theorem renderBlock_length_pos (b : List Char × List Char) :
    0 < (renderBlock b).length := by
  simp [renderBlock, openLit]

theorem findAllAux_render : ∀ (bs : List (List Char × List Char)) (fuel : Nat),
    (∀ b ∈ bs, wellFormedBlock b = true) → (renderBlocks bs).length ≤ fuel →
    findAllAux fuel (renderBlocks bs) = bs
  | [], fuel, _, _ => by cases fuel <;> rfl
  | b :: bs, fuel, hwf, hfuel => by
    have hblocks : renderBlocks (b :: bs) = renderBlock b ++ renderBlocks bs := by
      simp [renderBlocks]
    rw [hblocks] at hfuel ⊢
    have hlen : 0 < (renderBlock b).length := renderBlock_length_pos b
    rw [List.length_append] at hfuel
    cases fuel with
    | zero => exact absurd hfuel (by omega)
    | succ f =>
      cases hc : renderBlock b ++ renderBlocks bs with
      | nil =>
        rw [List.append_eq_nil] at hc
        rw [hc.1] at hlen
        simp at hlen
      | cons c cs =>
        simp only [findAllAux]
        rw [← hc, matchFileTagAt_render b _ (hwf b (List.mem_cons_self b bs))]
        dsimp only
        rw [findAllAux_render bs f
          (fun x hx => hwf x (List.mem_cons_of_mem b hx)) (by omega)]

theorem findAllFileTags_render (bs : List (List Char × List Char))
    (hwf : ∀ b ∈ bs, wellFormedBlock b = true) :
    findAllFileTags (renderBlocks bs) = bs :=
  findAllAux_render bs _ hwf le_rfl

theorem dictContains_append (d e : PyDict) (k : List Char) :
    dictContains (d ++ e) k = (dictContains d k || dictContains e k) := by
  simp [dictContains, List.any_append]

theorem strategyOne_fold : ∀ (bs : List (List Char × List Char)) (acc : PyDict),
    (∀ b ∈ bs, pyStrip b.2 ≠ []) → (bs.map Prod.fst).Nodup →
    (∀ b ∈ bs, dictContains acc b.1 = false) →
    bs.foldl (fun files nc =>
      let cleaned := pyStrip nc.2
      if cleaned.isEmpty then files else dictInsert files nc.1 cleaned) acc =
      acc ++ bs.map (fun b => (b.1, pyStrip b.2))
  | [], acc, _, _, _ => by simp
  | b :: bs, acc, hne, hnd, hfresh => by
    simp only [List.foldl_cons]
    have hstrip : (pyStrip b.2).isEmpty = false := by
      simp [List.isEmpty_iff, hne b (List.mem_cons_self b bs)]
    rw [if_neg (by simp [hstrip])]
    have hnotin : dictContains acc b.1 = false := hfresh b (List.mem_cons_self b bs)
    rw [dictInsert, if_neg (by simp [hnotin])]
    rw [List.map_cons, List.nodup_cons] at hnd
    rw [strategyOne_fold bs (acc ++ [(b.1, pyStrip b.2)])
      (fun x hx => hne x (List.mem_cons_of_mem b hx)) hnd.2 ?_]
    · simp
    · intro x hx
      rw [dictContains_append, hfresh x (List.mem_cons_of_mem b hx)]
      simp only [Bool.false_or, dictContains, List.any_cons, List.any_nil,
        Bool.or_false]
      rw [beq_eq_false_iff_ne]
      intro hcontra
      exact hnd.1 (hcontra ▸ List.mem_map_of_mem Prod.fst hx)

/-! ## Claim C3 -/

/-- C3 (amended): a response text composed of N well-formed FILE blocks
with pairwise-distinct names and contents that are not whitespace-only
parses (before the LICENSE/README injection) into exactly N entries, in
order, each entry's content being the block's content with surrounding
whitespace trimmed.  Without the distinct-name and non-whitespace
provisos the claim fails: see `claim_C3_counterexample`. -/
theorem claim_C3 (bs : List (List Char × List Char))
    (hwf : ∀ b ∈ bs, wellFormedBlock b = true)
    (hne : ∀ b ∈ bs, pyStrip b.2 ≠ [])
    (hnd : (bs.map Prod.fst).Nodup) :
    parseResponseFiles (renderBlocks bs) = bs.map (fun b => (b.1, pyStrip b.2)) := by
  have hone : strategyOne (renderBlocks bs) = bs.map (fun b => (b.1, pyStrip b.2)) := by
    rw [strategyOne, findAllFileTags_render bs hwf,
      strategyOne_fold bs [] hne hnd (fun _ _ => rfl)]
    simp
  cases bs with
  | nil =>
    rw [parseResponseFiles, hone]
    decide
  | cons b bs =>
    rw [parseResponseFiles, hone]
    rw [if_neg (by simp)]

/-- C3 demonstration input: three well-formed blocks, two sharing a name
and one whose content is whitespace-only. -/
def demoBlocks : List (List Char × List Char) :=
  [("a.txt".data, "x".data), ("a.txt".data, "y".data), ("b.txt".data, "   ".data)]

/-- C3 counterexample: the three well-formed blocks of `demoBlocks` parse
into a single entry, not three — the duplicate name is overwritten and
the whitespace-only content is dropped — so "exactly N entries with the
corresponding contents" fails as stated. -/
theorem claim_C3_counterexample :
    (∀ b ∈ demoBlocks, wellFormedBlock b = true) ∧
    demoBlocks.length = 3 ∧
    (parseResponseFiles (renderBlocks demoBlocks)).length = 1 := by
  refine ⟨by decide, rfl, by decide⟩

/-- C3 witness: the theorem applied to two concrete well-formed blocks. -/
theorem claim_C3_witness :
    parseResponseFiles (renderBlocks
      [("index.html".data, " <h1>hi</h1> ".data), ("app.js".data, "let x = 1;".data)]) =
      [("index.html".data, "<h1>hi</h1>".data), ("app.js".data, "let x = 1;".data)] := by
  have h := claim_C3
    [("index.html".data, " <h1>hi</h1> ".data), ("app.js".data, "let x = 1;".data)]
    (by decide) (by decide) (by decide)
  simpa using h

/-! ## Claim C5 -/

theorem dictContains_dictInsert_self (d : PyDict) (k v : List Char) :
    dictContains (dictInsert d k v) k = true := by
  rw [dictInsert]
  by_cases h : dictContains d k = true
  · rw [if_pos h]
    rw [dictContains, List.any_eq_true] at h ⊢
    obtain ⟨p, hp, hpk⟩ := h
    refine ⟨(k, v), List.mem_map.mpr ⟨p, hp, by rw [if_pos hpk]⟩, by simp⟩
  · rw [if_neg h, dictContains, List.any_eq_true]
    exact ⟨(k, v), by simp, by simp⟩

theorem dictContains_dictInsert_mono {d : PyDict} {q : List Char}
    (h : dictContains d q = true) (k v : List Char) :
    dictContains (dictInsert d k v) q = true := by
  rw [dictInsert]
  by_cases hc : dictContains d k = true
  · rw [if_pos hc]
    rw [dictContains, List.any_eq_true] at h ⊢
    obtain ⟨p, hp, hpq⟩ := h
    by_cases hpk : (p.1 == k) = true
    · refine ⟨(k, v), List.mem_map.mpr ⟨p, hp, by rw [if_pos hpk]⟩, ?_⟩
      have h1 : p.1 = k := by simpa using hpk
      have h2 : p.1 = q := by simpa using hpq
      simp [← h1, h2]
    · exact ⟨p, List.mem_map.mpr ⟨p, hp, by rw [if_neg hpk]⟩, hpq⟩
  · rw [if_neg hc, dictContains_append, h]
    simp

/-- C5: `_parse_llm_response` always returns a mapping containing the
keys `LICENSE` and `README.md` (defaults are synthesized when the parsed
blocks lack them), and applying the injection step to a mapping already
containing both keys leaves it unchanged, so re-running the
post-processing is idempotent. -/
theorem claim_C5 :
    (∀ s : List Char, dictContains (parse_llm_response s) licenseKey = true ∧
        dictContains (parse_llm_response s) readmeKey = true) ∧
    (∀ d : PyDict, dictContains d licenseKey = true →
        dictContains d readmeKey = true → injectDefaults d = d) := by
  have hinj : ∀ files : PyDict,
      dictContains (injectDefaults files) licenseKey = true ∧
      dictContains (injectDefaults files) readmeKey = true := by
    intro files
    rw [injectDefaults]
    by_cases hl : dictContains files licenseKey = true
    · rw [if_pos hl]
      by_cases hr : dictContains files readmeKey = true
      · rw [if_pos hr]; exact ⟨hl, hr⟩
      · rw [if_neg hr]
        exact ⟨dictContains_dictInsert_mono hl _ _, dictContains_dictInsert_self _ _ _⟩
    · rw [if_neg hl]
      by_cases hr : dictContains (dictInsert files licenseKey defaultLicense) readmeKey = true
      · rw [if_pos hr]
        exact ⟨dictContains_dictInsert_self _ _ _, hr⟩
      · rw [if_neg hr]
        exact ⟨dictContains_dictInsert_mono (dictContains_dictInsert_self _ _ _) _ _,
          dictContains_dictInsert_self _ _ _⟩
  constructor
  · intro s
    exact hinj (parseResponseFiles s)
  · intro d hl hr
    rw [injectDefaults, if_pos hl, if_pos hr]

/-- C5 witness: the theorem applied to a concrete response and to a
concrete mapping already containing both keys. -/
theorem claim_C5_witness :
    (dictContains (parse_llm_response "plain text, no tags".data) licenseKey = true ∧
      dictContains (parse_llm_response "plain text, no tags".data) readmeKey = true) ∧
    injectDefaults [(licenseKey, "MIT".data), (readmeKey, "hello".data)] =
      [(licenseKey, "MIT".data), (readmeKey, "hello".data)] :=
  ⟨claim_C5.1 "plain text, no tags".data,
   claim_C5.2 [(licenseKey, "MIT".data), (readmeKey, "hello".data)] (by decide) (by decide)⟩

/-! ## HTTP outcomes and the notifier retry loop
(round1.py lines 144-173, round2.py lines 149-178) -/

/-- Outcome of one HTTP request made by the pipeline: a response with a
status code, or a raised exception (timeout or other network error). -/
inductive HttpOutcome where
  | ok (status : Nat)
  | exc
deriving DecidableEq

/-- Python `response.status_code == 200`, with an exception counting as
not-successful (both `except` arms fall through to the retry). -/
def isOk200 : HttpOutcome → Bool
  | .ok 200 => true
  | _ => false

/-- Observable behaviour of the notifier loop: number of POST attempts
made, the list of sleeps performed between attempts, and whether a 200
acknowledgement was received. -/
structure NotifyResult where
  attempts : Nat
  sleeps : List Nat
  notified : Bool
deriving DecidableEq

/-- The notifier retry loop: `for attempt in range(max_retries)`: POST
(outcome `outcomes attempt`); `break` on a 200; otherwise
`time.sleep(2 ** attempt)` unless this was the last attempt.  Recursion
over the remaining iteration count. -/
def notifyAux (outcomes : Nat → HttpOutcome) (maxRetries : Nat) :
    Nat → Nat → NotifyResult
  | _, 0 => ⟨0, [], false⟩
  | attempt, remaining + 1 =>
    if isOk200 (outcomes attempt) then ⟨1, [], true⟩
    else
      let sleeps0 := if attempt < maxRetries - 1 then [2 ^ attempt] else []
      let r := notifyAux outcomes maxRetries (attempt + 1) remaining
      ⟨r.attempts + 1, sleeps0 ++ r.sleeps, r.notified⟩

/-- Embeds the notification retry loop of round 1 and round 2:
`max_retries = 4`, POST, break on 200, exponential backoff
`2 ** attempt` between attempts. -/
def notifyRun (outcomes : Nat → HttpOutcome) : NotifyResult :=
  notifyAux outcomes 4 0 4

/-! ## Claim C4 -/

/-- C4 (amended): when no POST returns status 200, the notifier loop
makes exactly 4 POST attempts and the delays slept between consecutive
attempts are 1, 2 and 4 — there is no sleep of 8, because the
`if attempt < max_retries - 1` guard skips the sleep after the final
attempt — and the loop gives up silently. -/
theorem claim_C4 (outcomes : Nat → HttpOutcome)
    (h : ∀ i, i < 4 → isOk200 (outcomes i) = false) :
    (notifyRun outcomes).attempts = 4 ∧
    (notifyRun outcomes).sleeps = [1, 2, 4] ∧
    (notifyRun outcomes).notified = false := by
  have h0 := h 0 (by omega)
  have h1 := h 1 (by omega)
  have h2 := h 2 (by omega)
  have h3 := h 3 (by omega)
  refine ⟨?_, ?_, ?_⟩ <;>
    simp [notifyRun, notifyAux, h0, h1, h2, h3]

/-- C4 witness: the theorem applied to a trace of constant 500
responses. -/
theorem claim_C4_witness :
    (∀ i, i < 4 → isOk200 ((fun _ => HttpOutcome.ok 500) i) = false) ∧
    (notifyRun (fun _ => HttpOutcome.ok 500)).attempts = 4 ∧
    (notifyRun (fun _ => HttpOutcome.ok 500)).sleeps = [1, 2, 4] ∧
    (notifyRun (fun _ => HttpOutcome.ok 500)).notified = false :=
  ⟨fun _ _ => rfl, claim_C4 (fun _ => HttpOutcome.ok 500) (fun _ _ => rfl)⟩

/-- C4 counterexample: on a run in which every POST raises, the loop
makes 4 attempts but sleeps only 1, 2, 4 — not 1, 2, 4, 8 as claimed. -/
theorem claim_C4_counterexample :
    (∀ i : Nat, isOk200 ((fun _ => HttpOutcome.exc) i) = false) ∧
    (notifyRun (fun _ => HttpOutcome.exc)).attempts = 4 ∧
    (notifyRun (fun _ => HttpOutcome.exc)).sleeps ≠ [1, 2, 4, 8] :=
  ⟨fun _ => rfl, by decide, by decide⟩

/-! ## Request gateway and secret validation
(src/main.py lines 104-145, src/src/validate_secrets.py lines 7-34) -/

/-- Environment configuration seen by the gateway: the value of the
`STUDENT_SECRET` environment variable, `none` when unset. -/
structure Env where
  studentSecret : Option String
deriving DecidableEq

/-- Embeds `validate_secret`: `os.getenv("STUDENT_SECRET", "")` yields
the empty string when unset; an empty expected secret is rejected
outright; otherwise `hmac.compare_digest`, i.e. string equality computed
in constant time. -/
def validate_secret (env : Env) (provided : String) : Bool :=
  let expected := env.studentSecret.getD ""
  if expected = "" then false
  else provided == expected

/-- The request payload fields relevant to the gateway decision
(pydantic `TaskRequest`). -/
structure TaskRequest where
  email : String
  secret : String
  task : String
  round : Int
  nonce : String
deriving DecidableEq

/-- Background work the gateway can schedule. -/
inductive BgTask where
  | round1
  | round2
deriving DecidableEq

/-- Gateway outcome: immediate 200 acknowledgement carrying the usercode
and the scheduled background tasks, or an HTTP error. -/
inductive SubmitResult where
  | ok (usercode : String) (scheduled : List BgTask)
  | httpError (status : Nat) (detail : String)
deriving DecidableEq

/-- Embeds the `/submit` handler: validate the secret first — a failure
raises `HTTPException(401)` before any background task is queued — then
schedule round-1 or round-2 processing and acknowledge with the
requester's email, or reject an invalid round with 400. -/
def submit (env : Env) (req : TaskRequest) : SubmitResult :=
  if ¬ validate_secret env req.secret then .httpError 401 "Invalid secret"
  else if req.round = 1 then .ok req.email [.round1]
  else if req.round = 2 then .ok req.email [.round2]
  else .httpError 400 "Invalid round number"

/-- Background tasks scheduled by a gateway outcome. -/
def scheduledTasks : SubmitResult → List BgTask
  | .ok _ ts => ts
  | .httpError _ _ => []

/-! ## Claim C6 -/

/-- C6: a request whose secret fails validation is rejected with a 401
authentication error, and no background work is scheduled — neither
round1 nor round2 runs, so no repository is created and no callback POST
is sent. -/
theorem claim_C6 (env : Env) (req : TaskRequest)
    (h : validate_secret env req.secret = false) :
    submit env req = .httpError 401 "Invalid secret" ∧
    scheduledTasks (submit env req) = [] := by
  have hs : submit env req = .httpError 401 "Invalid secret" := by
    rw [submit, if_pos (by simp [h])]
  exact ⟨hs, by rw [hs]; rfl⟩

/-- C6 witness: a concrete wrong-secret request is rejected. -/
theorem claim_C6_witness :
    validate_secret ⟨some "s3cret"⟩ "wrong" = false ∧
    submit ⟨some "s3cret"⟩ ⟨"a@b.c", "wrong", "task-1", 1, "n0"⟩ =
      .httpError 401 "Invalid secret" ∧
    scheduledTasks (submit ⟨some "s3cret"⟩ ⟨"a@b.c", "wrong", "task-1", 1, "n0"⟩) = [] :=
  ⟨by decide, claim_C6 ⟨some "s3cret"⟩ ⟨"a@b.c", "wrong", "task-1", 1, "n0"⟩ (by decide)⟩

/-! ## Claim C9 -/

/-- C9: when the `STUDENT_SECRET` environment variable is unset or empty,
`validate_secret` returns false for every provided secret — including the
empty string — so no request can authenticate against an unconfigured
shared secret. -/
theorem claim_C9 (env : Env) (provided : String)
    (h : env.studentSecret = none ∨ env.studentSecret = some "") :
    validate_secret env provided = false := by
  rcases h with h | h <;> simp [validate_secret, h]

/-- C9 witness: the unset and the empty configuration both reject the
empty provided secret. -/
theorem claim_C9_witness :
    validate_secret ⟨none⟩ "" = false ∧ validate_secret ⟨some ""⟩ "" = false :=
  ⟨claim_C9 ⟨none⟩ "" (Or.inl rfl), claim_C9 ⟨some ""⟩ "" (Or.inr rfl)⟩

/-! ## Deployment polling
(`wait_for_pages_deployment`, round1.py lines 18-54, round2.py lines 16-48)

Discrete-time model: the elapsed clock advances only by the
`time.sleep(10)` calls; `outcomes n` is the outcome of the (n+1)-st poll,
and a raised exception is caught and treated like a non-200 status. -/

/-- Observable behaviour of the polling loop. -/
structure WaitResult where
  reachable : Bool
  polls : Nat
  sleeps : List Nat
deriving DecidableEq

/-- Loop body of `wait_for_pages_deployment`: while the elapsed time is
below `maxWait`, poll, return True immediately on a 200, otherwise sleep
10 and continue; once the budget has elapsed return False.  Fuel-driven;
`maxWait + 1` fuel always suffices since every iteration advances the
clock by 10. -/
def waitAux (outcomes : Nat → HttpOutcome) (maxWait : Nat) :
    Nat → Nat → Nat → List Nat → WaitResult
  | 0, _, attempt, sleeps => ⟨false, attempt, sleeps.reverse⟩
  | fuel + 1, t, attempt, sleeps =>
    if t < maxWait then
      if isOk200 (outcomes attempt) then ⟨true, attempt + 1, sleeps.reverse⟩
      else waitAux outcomes maxWait fuel (t + 10) (attempt + 1) (10 :: sleeps)
    else ⟨false, attempt, sleeps.reverse⟩

/-- Embeds `wait_for_pages_deployment` over an abstract poll trace. -/
def wait_for_pages_deployment (outcomes : Nat → HttpOutcome) (maxWait : Nat) :
    WaitResult :=
  waitAux outcomes maxWait (maxWait + 1) 0 0 []

/-- Number of polls the loop performs when none succeeds:
ceil(maxWait / 10). -/
def pollBudget (maxWait : Nat) : Nat := (maxWait + 9) / 10

theorem waitAux_spec (outcomes : Nat → HttpOutcome) (maxWait : Nat) :
    ∀ (fuel t attempt : Nat) (sleeps : List Nat),
      maxWait ≤ t + 10 * fuel →
      (∀ d ∈ sleeps, d = 10) →
      (((waitAux outcomes maxWait fuel t attempt sleeps).reachable = true ↔
        ∃ j, t + 10 * j < maxWait ∧ isOk200 (outcomes (attempt + j)) = true) ∧
       (∀ d ∈ (waitAux outcomes maxWait fuel t attempt sleeps).sleeps, d = 10) ∧
       ((waitAux outcomes maxWait fuel t attempt sleeps).reachable = false →
        (waitAux outcomes maxWait fuel t attempt sleeps).polls =
          attempt + (maxWait - t + 9) / 10))
  | 0, t, attempt, sleeps, hfuel, hsleeps => by
    rw [waitAux]
    refine ⟨?_, ?_, ?_⟩
    · simp only [Bool.false_eq_true, false_iff]
      rintro ⟨j, hj, -⟩
      omega
    · intro d hd
      exact hsleeps d (List.mem_reverse.mp hd)
    · intro
      show attempt = attempt + (maxWait - t + 9) / 10
      omega
  | fuel + 1, t, attempt, sleeps, hfuel, hsleeps => by
    rw [waitAux]
    by_cases ht : t < maxWait
    · rw [if_pos ht]
      by_cases hok : isOk200 (outcomes attempt) = true
      · rw [if_pos hok]
        refine ⟨?_, ?_, ?_⟩
        · simp only [true_iff]
          exact ⟨0, by omega, by simpa using hok⟩
        · intro d hd
          exact hsleeps d (List.mem_reverse.mp hd)
        · intro hcontra
          simp at hcontra
      · rw [if_neg hok]
        obtain ⟨ih1, ih2, ih3⟩ := waitAux_spec outcomes maxWait fuel (t + 10)
          (attempt + 1) (10 :: sleeps) (by omega)
          (by intro d hd; rcases List.mem_cons.mp hd with rfl | hd
              · rfl
              · exact hsleeps d hd)
        refine ⟨?_, ih2, ?_⟩
        · rw [ih1]
          constructor
          · rintro ⟨j, hj, hjok⟩
            refine ⟨j + 1, by omega, ?_⟩
            rw [show attempt + (j + 1) = attempt + 1 + j by omega]
            exact hjok
          · rintro ⟨j, hj, hjok⟩
            cases j with
            | zero =>
              rw [Nat.add_zero] at hjok
              exact absurd hjok (by simpa using hok)
            | succ j =>
              refine ⟨j, by omega, ?_⟩
              rw [show attempt + 1 + j = attempt + (j + 1) by omega]
              exact hjok
        · intro hfalse
          rw [ih3 hfalse]
          omega
    · rw [if_neg ht]
      refine ⟨?_, ?_, ?_⟩
      · simp only [Bool.false_eq_true, false_iff]
        rintro ⟨j, hj, -⟩
        omega
      · intro d hd
        exact hsleeps d (List.mem_reverse.mp hd)
      · intro
        show attempt = attempt + (maxWait - t + 9) / 10
        omega

/-! ## Claim C7 -/

/-- C7: the polling loop is total (it always returns a boolean result —
exceptions during a poll are swallowed and treated as "not yet ready",
exactly like a non-200 status); every sleep between polls is exactly 10
time units; it returns true precisely when some poll within the wait
budget observes a 200; and when none does it returns false after
exhausting the budget, having made ceil(maxWait/10) polls. -/
theorem claim_C7 (outcomes : Nat → HttpOutcome) (maxWait : Nat) :
    ((wait_for_pages_deployment outcomes maxWait).reachable = true ↔
      ∃ j, 10 * j < maxWait ∧ isOk200 (outcomes j) = true) ∧
    (∀ d ∈ (wait_for_pages_deployment outcomes maxWait).sleeps, d = 10) ∧
    ((wait_for_pages_deployment outcomes maxWait).reachable = false →
      (wait_for_pages_deployment outcomes maxWait).polls = pollBudget maxWait) := by
  obtain ⟨h1, h2, h3⟩ := waitAux_spec outcomes maxWait (maxWait + 1) 0 0 []
    (by omega) (by intro d hd; simp at hd)
  rw [wait_for_pages_deployment]
  refine ⟨?_, h2, ?_⟩
  · rw [h1]
    constructor
    · rintro ⟨j, hj, hok⟩
      exact ⟨j, by omega, by simpa using hok⟩
    · rintro ⟨j, hj, hok⟩
      exact ⟨j, by omega, by simpa using hok⟩
  · intro hfalse
    rw [h3 hfalse]
    show 0 + (maxWait - 0 + 9) / 10 = pollBudget maxWait
    rw [pollBudget]
    omega

/-- C7 witness: the theorem applied to a concrete trace (an error, then a
non-200, then a 200) with the 120-unit budget the callers use. -/
theorem claim_C7_witness :
    ((wait_for_pages_deployment
        (fun i => if i = 2 then HttpOutcome.ok 200 else HttpOutcome.exc) 120).reachable = true ↔
      ∃ j, 10 * j < 120 ∧
        isOk200 ((fun i => if i = 2 then HttpOutcome.ok 200 else HttpOutcome.exc) j) = true) ∧
    (∀ d ∈ (wait_for_pages_deployment
        (fun i => if i = 2 then HttpOutcome.ok 200 else HttpOutcome.exc) 120).sleeps, d = 10) ∧
    ((wait_for_pages_deployment
        (fun i => if i = 2 then HttpOutcome.ok 200 else HttpOutcome.exc) 120).reachable = false →
      (wait_for_pages_deployment
        (fun i => if i = 2 then HttpOutcome.ok 200 else HttpOutcome.exc) 120).polls =
        pollBudget 120) :=
  claim_C7 (fun i => if i = 2 then HttpOutcome.ok 200 else HttpOutcome.exc) 120

/-! ## Publisher commit logic
(`push_code_to_repo`, src/src/push_llm_code.py lines 599-656)

The git working tree and the HEAD tree are modelled as finite maps over
file paths; `git add -A` stages the whole working tree, and
`git diff --cached --quiet` exits 0 exactly when the staged index equals
the HEAD tree.  `git commit` + `git push` advance HEAD to a fresh commit
id; `git rev-parse HEAD` reads the current head id. -/

/-- State of the task's repository clone. -/
structure RepoState where
  headCommit : List Char
  headTree : PyDict
  workTree : PyDict
  history : List (List Char)
deriving DecidableEq

/-- The file-writing loops of `push_code_to_repo` (lines 579-597): write
each file of the mapping into the working tree. -/
def writeFiles (tree : PyDict) (files : PyDict) : PyDict :=
  files.foldl (fun t f => dictInsert t f.1 f.2) tree

/-- Fresh commit id for a new commit (the model only needs some id). -/
def newCommitId (st : RepoState) : List Char :=
  'c' :: List.replicate st.history.length '*'

/-- Embeds `push_code_to_repo` from the point where the clone exists
(lines 579-656): write generated files, then attachment files, run
`git add -A`, and if `git diff --cached --quiet` reports an empty staged
diff, commit nothing and return `git rev-parse HEAD`; otherwise commit,
push, and return the new head id. -/
def push_code_to_repo (st : RepoState) (generated attachments : PyDict) :
    List Char × RepoState :=
  let wt := writeFiles (writeFiles st.workTree generated) attachments
  if wt = st.headTree then
    (st.headCommit, { st with workTree := wt })
  else
    let sha := newCommitId st
    (sha, ⟨sha, wt, wt, sha :: st.history⟩)

/-! ## Claim C8 -/

/-- C8: when the staged diff after writing the generated and attachment
files is empty (the updated working tree equals the HEAD tree),
`push_code_to_repo` creates no new commit and returns the current head
commit id unchanged; a commit (and push) happens exactly when the staged
diff is non-empty, and then the returned id is the new commit's. -/
theorem claim_C8 (st : RepoState) (generated attachments : PyDict) :
    (writeFiles (writeFiles st.workTree generated) attachments = st.headTree →
      (push_code_to_repo st generated attachments).1 = st.headCommit ∧
      (push_code_to_repo st generated attachments).2.headCommit = st.headCommit ∧
      (push_code_to_repo st generated attachments).2.history = st.history) ∧
    (writeFiles (writeFiles st.workTree generated) attachments ≠ st.headTree →
      (push_code_to_repo st generated attachments).2.history =
        newCommitId st :: st.history ∧
      (push_code_to_repo st generated attachments).1 = newCommitId st) := by
  constructor <;> intro h <;> simp [push_code_to_repo, h]

/-- C8 witness: publishing identical content twice — a state whose HEAD
tree already equals the working tree plus the written files — returns
the prior head unchanged; publishing different content commits. -/
theorem claim_C8_witness :
    (push_code_to_repo
      ⟨"c0".data, [("a".data, "x".data)], [("a".data, "x".data)], ["c0".data]⟩
      [("a".data, "x".data)] []).1 = "c0".data ∧
    (push_code_to_repo
      ⟨"c0".data, [("a".data, "x".data)], [("a".data, "x".data)], ["c0".data]⟩
      [("a".data, "y".data)] []).2.history =
      newCommitId ⟨"c0".data, [("a".data, "x".data)], [("a".data, "x".data)], ["c0".data]⟩ ::
        ["c0".data] :=
  ⟨((claim_C8 _ _ _).1 (by decide)).1, ((claim_C8 _ _ _).2 (by decide)).1⟩

/-! ## Data-URI decoding
(`_decode_data_uri`, round1.py lines 203-211, round2.py lines 208-216,
utils.py lines 120-132; all three behave identically) -/

/-- Python `s.split(sep, 1)` as the pair of parts; `none` when the
separator does not occur (so the split yields fewer than 2 parts and the
tuple unpacking / length check raises ValueError). -/
def splitFirst (sep : Char) : List Char → Option (List Char × List Char)
  | [] => none
  | c :: cs =>
    if c = sep then some ([], cs)
    else (splitFirst sep cs).map (fun p => (c :: p.1, p.2))

/-- Value of a base64 alphabet character. -/
def b64Value (c : Char) : Option Nat :=
  if 65 ≤ c.toNat ∧ c.toNat ≤ 90 then some (c.toNat - 65)
  else if 97 ≤ c.toNat ∧ c.toNat ≤ 122 then some (c.toNat - 71)
  else if 48 ≤ c.toNat ∧ c.toNat ≤ 57 then some (c.toNat + 4)
  else if c = '+' then some 62
  else if c = '/' then some 63
  else none

/-- Bytes produced by a pending group of 2, 3 or 4 six-bit values. -/
def b64Emit : List Nat → List Nat
  | [a, b] => [((a <<< 6) + b) >>> 4]
  | [a, b, c] =>
    [((a <<< 12) + (b <<< 6) + c) >>> 10,
     (((a <<< 12) + (b <<< 6) + c) >>> 2) % 256]
  | [a, b, c, d] =>
    [((a <<< 18) + (b <<< 12) + (c <<< 6) + d) >>> 16,
     (((a <<< 18) + (b <<< 12) + (c <<< 6) + d) >>> 8) % 256,
     ((a <<< 18) + (b <<< 12) + (c <<< 6) + d) % 256]
  | _ => []

/-- The scan of CPython `binascii.a2b_base64` in non-strict mode:
characters outside the alphabet are discarded; a full quad of values
emits 3 bytes; `=` is ignored while fewer than 2 values are pending,
and once the pending values plus the padding seen reach a full quad the
pending 2 or 3 values are emitted and the rest of the input is ignored;
a data character resets the padding count; input ending with a nonempty
pending group is an error (`Incorrect padding` / invalid length). -/
def b64Scan : List Char → List Nat → Nat → List Nat → Option (List Nat)
  | [], [], _, out => some out
  | [], _ :: _, _, _ => none
  | c :: cs, quad, pads, out =>
    if c = '=' then
      if 2 ≤ quad.length then
        if 4 ≤ quad.length + (pads + 1) then some (out ++ b64Emit quad)
        else b64Scan cs quad (pads + 1) out
      else b64Scan cs quad pads out
    else
      match b64Value c with
      | none => b64Scan cs quad pads out
      | some v =>
        if (quad ++ [v]).length = 4 then b64Scan cs [] 0 (out ++ b64Emit (quad ++ [v]))
        else b64Scan cs (quad ++ [v]) 0 out

/-- Models Python `base64.b64decode` on a `str` argument (default
`validate=False`): the string is ASCII-encoded first (a non-ASCII
character raises), then decoded by the non-strict base64 scan;
`none` models the raised `binascii.Error` / `ValueError`. -/
def b64decode (s : List Char) : Option (List Nat) :=
  if s.any (fun c => 128 ≤ c.toNat) then none
  else b64Scan s [] 0 []

/-- Embeds `_decode_data_uri`: split at the first comma — fewer than two
parts raises ValueError — then base64-decode the part after the comma;
every exception is caught and yields the empty byte string. -/
def decode_data_uri (s : List Char) : List Nat :=
  match splitFirst ',' s with
  | none => []
  | some (_, content) =>
    match b64decode content with
    | none => []
    | some bytes => bytes

/-! ## Claim C10 -/

/-- C10: `_decode_data_uri` is total — it is a plain function into byte
strings, never propagating an error — and on a malformed data URI (no
comma, or base64 decoding fails after the comma) it returns the empty
byte string; when decoding succeeds it returns the decoded bytes. -/
theorem claim_C10 (s : List Char) :
    (splitFirst ',' s = none → decode_data_uri s = []) ∧
    (∀ pre post, splitFirst ',' s = some (pre, post) →
      b64decode post = none → decode_data_uri s = []) ∧
    (∀ pre post bytes, splitFirst ',' s = some (pre, post) →
      b64decode post = some bytes → decode_data_uri s = bytes) := by
  refine ⟨?_, ?_, ?_⟩
  · intro h
    rw [decode_data_uri, h]
  · intro pre post h hb
    rw [decode_data_uri, h]
    dsimp only
    rw [hb]
  · intro pre post bytes h hb
    rw [decode_data_uri, h]
    dsimp only
    rw [hb]

/-- C10 witness: a data URI with no comma, and one whose base64 part is
invalid (a single alphabet character), both decode to the empty byte
string. -/
theorem claim_C10_witness :
    decode_data_uri "data:text/plain;base64".data = [] ∧
    decode_data_uri "data:;base64,a".data = [] :=
  ⟨(claim_C10 "data:text/plain;base64".data).1 (by decide),
   (claim_C10 "data:;base64,a".data).2.1 "data:;base64".data "a".data
     (by decide) (by decide)⟩

end LLMApp
